import Mathlib

/-!
Verification of the streaming worker of `src/main.cpp` (class `RadioWorker`):
a shallow embedding of `RadioWorker::run` — connection attempt, the signal
generation loop (sine/square synthesis with a wrapping phase accumulator),
hardware burst framing, simulated delay, and the try-lock snapshot publish —
with C++ `double` arithmetic idealised as real arithmetic.
-/

namespace USRPVis

/-- The per-sample phase increment the run loop computes:
`2.0 * M_PI * current_freq / sample_rate` with the fixed locals
`current_freq = 10e3` and `sample_rate = 1e6` (src/main.cpp:75-79). -/
noncomputable def incC : ℝ := 2 * Real.pi * 10000 / 1000000

/-- One per-sample phase update (src/main.cpp:93-94):
`phase += increment; if (phase > 2 * M_PI) phase -= 2 * M_PI;`. -/
noncomputable def wrapStep (inc p : ℝ) : ℝ :=
  if p + inc > 2 * Real.pi then p + inc - 2 * Real.pi else p + inc

/-- The phase at which sample `n` is synthesised when the buffer loop is
entered with accumulator value `p`. -/
noncomputable def phaseAt (inc p : ℝ) : ℕ → ℝ
  | 0 => p
  | n + 1 => wrapStep inc (phaseAt inc p n)

/-- The square-wave sign `(x > 0) ? 1.0 : -1.0` (src/main.cpp:89-90).
The zero-crossing policy is strict: `csign 0 = -1`. -/
noncomputable def csign (x : ℝ) : ℝ := if x > 0 then 1 else -1

/-- One complex sample (src/main.cpp:84-92): type `0` is SINE, any other
selector value takes the SQUARE branch; the pair is (I, Q) and each
component is the raw waveform value times the amplitude. -/
noncomputable def synthSample (amp : ℝ) (ty : ℤ) (θ : ℝ) : ℝ × ℝ :=
  if ty = 0 then (Real.cos θ * amp, Real.sin θ * amp)
  else (csign (Real.cos θ) * amp, csign (Real.sin θ) * amp)

/-- The buffer the inner for-loop produces (src/main.cpp:83-95): sample `i`
is synthesised at phase `phaseAt inc p i` and the accumulator is stepped
after each sample. -/
noncomputable def synthBuffer (amp : ℝ) (ty : ℤ) (inc p : ℝ) (n : ℕ) : List (ℝ × ℝ) :=
  (List.range n).map fun i => synthSample amp ty (phaseAt inc p i)

lemma incC_eq : incC = Real.pi / 50 := by
  unfold incC; ring

lemma synthBuffer_length (amp : ℝ) (ty : ℤ) (inc p : ℝ) (n : ℕ) :
    (synthBuffer amp ty inc p n).length = n := by
  simp [synthBuffer]

lemma synthBuffer_get (amp : ℝ) (ty : ℤ) (inc p : ℝ) (n : ℕ) (i : ℕ)
    (hi : i < (synthBuffer amp ty inc p n).length) :
    (synthBuffer amp ty inc p n).get ⟨i, hi⟩ = synthSample amp ty (phaseAt inc p i) := by
  simp [synthBuffer]

lemma synthBuffer_pos (amp : ℝ) (ty : ℤ) (inc p : ℝ) :
    0 < (synthBuffer amp ty inc p 2048).length := by
  simp [synthBuffer]

lemma csign_mul_cases (x a : ℝ) : csign x * a = a ∨ csign x * a = -a := by
  unfold csign
  split_ifs
  · left; ring
  · right; ring

lemma csign_zero : csign 0 = -1 := by
  unfold csign
  norm_num

lemma synthSample_sine (amp θ : ℝ) :
    synthSample amp 0 θ = (Real.cos θ * amp, Real.sin θ * amp) := by
  unfold synthSample
  norm_num

lemma synthSample_square (amp θ : ℝ) :
    synthSample amp 1 θ = (csign (Real.cos θ) * amp, csign (Real.sin θ) * amp) := by
  unfold synthSample
  norm_num

/-- **C4.** With the SINE selector, sample `i` of the produced buffer is
`(amplitude · cos θᵢ, amplitude · sin θᵢ)` for the phase sequence `θᵢ`
the accumulator walks through, and consequently each sample satisfies
`real² + imag² = amplitude²` (exactly, in the idealised real semantics),
for every amplitude in `[0, 1]` and every start phase and increment. -/
theorem C4_sine_buffer (amp inc p : ℝ) (h0 : 0 ≤ amp) (h1 : amp ≤ 1) (i : ℕ)
    (hi : i < (synthBuffer amp 0 inc p 2048).length) :
    ((synthBuffer amp 0 inc p 2048).get ⟨i, hi⟩).1 = amp * Real.cos (phaseAt inc p i) ∧
    ((synthBuffer amp 0 inc p 2048).get ⟨i, hi⟩).2 = amp * Real.sin (phaseAt inc p i) ∧
    ((synthBuffer amp 0 inc p 2048).get ⟨i, hi⟩).1 ^ 2
      + ((synthBuffer amp 0 inc p 2048).get ⟨i, hi⟩).2 ^ 2 = amp ^ 2 := by
  rw [synthBuffer_get, synthSample_sine]
  refine ⟨mul_comm _ _, mul_comm _ _, ?_⟩
  show (Real.cos (phaseAt inc p i) * amp) ^ 2 + (Real.sin (phaseAt inc p i) * amp) ^ 2
    = amp ^ 2
  linear_combination amp ^ 2 * Real.sin_sq_add_cos_sq (phaseAt inc p i)

/-- Witness for C4 at amplitude 1, zero increment and zero start phase,
sample 0. -/
theorem C4_sine_buffer_w :
    ((synthBuffer 1 0 0 0 2048).get ⟨0, synthBuffer_pos 1 0 0 0⟩).1
        = 1 * Real.cos (phaseAt 0 0 0) ∧
    ((synthBuffer 1 0 0 0 2048).get ⟨0, synthBuffer_pos 1 0 0 0⟩).2
        = 1 * Real.sin (phaseAt 0 0 0) ∧
    ((synthBuffer 1 0 0 0 2048).get ⟨0, synthBuffer_pos 1 0 0 0⟩).1 ^ 2
      + ((synthBuffer 1 0 0 0 2048).get ⟨0, synthBuffer_pos 1 0 0 0⟩).2 ^ 2 = 1 ^ 2 :=
  C4_sine_buffer 1 0 0 zero_le_one le_rfl 0 (synthBuffer_pos 1 0 0 0)

/-- **C5.** With the SQUARE selector, sample `i` of the produced buffer is
`(amplitude · sign(cos θᵢ), amplitude · sign(sin θᵢ))` for the code's fixed
sign function `csign` (whose zero policy is `csign 0 = -1`), so each
component lies in `{-amplitude, amplitude}`, for every amplitude in `[0, 1]`. -/
theorem C5_square_buffer (amp inc p : ℝ) (h0 : 0 ≤ amp) (h1 : amp ≤ 1) (i : ℕ)
    (hi : i < (synthBuffer amp 1 inc p 2048).length) :
    (synthBuffer amp 1 inc p 2048).get ⟨i, hi⟩
        = (amp * csign (Real.cos (phaseAt inc p i)),
           amp * csign (Real.sin (phaseAt inc p i))) ∧
    csign 0 = -1 ∧
    (((synthBuffer amp 1 inc p 2048).get ⟨i, hi⟩).1 = amp ∨
      ((synthBuffer amp 1 inc p 2048).get ⟨i, hi⟩).1 = -amp) ∧
    (((synthBuffer amp 1 inc p 2048).get ⟨i, hi⟩).2 = amp ∨
      ((synthBuffer amp 1 inc p 2048).get ⟨i, hi⟩).2 = -amp) := by
  rw [synthBuffer_get, synthSample_square]
  refine ⟨?_, csign_zero, csign_mul_cases _ _, csign_mul_cases _ _⟩
  rw [mul_comm (amp : ℝ), mul_comm (amp : ℝ)]

/-- Witness for C5 at amplitude 1, zero increment and zero start phase,
sample 0. -/
theorem C5_square_buffer_w :
    (synthBuffer 1 1 0 0 2048).get ⟨0, synthBuffer_pos 1 1 0 0⟩
        = (1 * csign (Real.cos (phaseAt 0 0 0)), 1 * csign (Real.sin (phaseAt 0 0 0))) ∧
    csign 0 = -1 ∧
    (((synthBuffer 1 1 0 0 2048).get ⟨0, synthBuffer_pos 1 1 0 0⟩).1 = 1 ∨
      ((synthBuffer 1 1 0 0 2048).get ⟨0, synthBuffer_pos 1 1 0 0⟩).1 = -1) ∧
    (((synthBuffer 1 1 0 0 2048).get ⟨0, synthBuffer_pos 1 1 0 0⟩).2 = 1 ∨
      ((synthBuffer 1 1 0 0 2048).get ⟨0, synthBuffer_pos 1 1 0 0⟩).2 = -1) :=
  C5_square_buffer 1 0 0 zero_le_one le_rfl 0 (synthBuffer_pos 1 1 0 0)

/-- **C10.** The SQUARE branch compares strictly (`value > 0`), so zero is
treated as negative (`csign 0 = -1`): whenever `cos θᵢ` (resp. `sin θᵢ`) is
zero or negative, the real (resp. imaginary) component of sample `i` is
exactly `-amplitude`. -/
theorem C10_square_sign_zero (amp inc p : ℝ) (i : ℕ)
    (hi : i < (synthBuffer amp 1 inc p 2048).length) :
    csign 0 = -1 ∧
    (Real.cos (phaseAt inc p i) ≤ 0 →
      ((synthBuffer amp 1 inc p 2048).get ⟨i, hi⟩).1 = -amp) ∧
    (Real.sin (phaseAt inc p i) ≤ 0 →
      ((synthBuffer amp 1 inc p 2048).get ⟨i, hi⟩).2 = -amp) := by
  rw [synthBuffer_get, synthSample_square]
  refine ⟨csign_zero, ?_, ?_⟩
  · intro h
    unfold csign
    rw [if_neg (not_lt.mpr h)]
    ring
  · intro h
    unfold csign
    rw [if_neg (not_lt.mpr h)]
    ring

/-- Witness for C10 at amplitude 1, zero increment, start phase π, sample 0:
`cos π = -1 ≤ 0` and `sin π = 0 ≤ 0`, so both components are `-1`. -/
theorem C10_square_sign_zero_w :
    csign 0 = -1 ∧
    (Real.cos (phaseAt 0 Real.pi 0) ≤ 0 →
      ((synthBuffer 1 1 0 Real.pi 2048).get ⟨0, synthBuffer_pos 1 1 0 Real.pi⟩).1 = -1) ∧
    (Real.sin (phaseAt 0 Real.pi 0) ≤ 0 →
      ((synthBuffer 1 1 0 Real.pi 2048).get ⟨0, synthBuffer_pos 1 1 0 Real.pi⟩).2 = -1) :=
  C10_square_sign_zero 1 0 Real.pi 0 (synthBuffer_pos 1 1 0 Real.pi)

lemma phaseAt_incC_linear (k : ℕ) (hk : k ≤ 100) :
    phaseAt incC 0 k = k * (Real.pi / 50) := by
  induction k with
  | zero => simp [phaseAt]
  | succ m ih =>
    have hm : m ≤ 100 := by omega
    have hcast : ((m : ℝ) + 1) ≤ 100 := by
      have : (m : ℝ) + 1 = ((m + 1 : ℕ) : ℝ) := by push_cast; ring
      rw [this]
      exact_mod_cast hk
    have hpos : (0 : ℝ) < Real.pi / 50 := by positivity
    have hle : (m : ℝ) * (Real.pi / 50) + Real.pi / 50 ≤ 2 * Real.pi := by
      have h2 : ((m : ℝ) + 1) * (Real.pi / 50) ≤ 100 * (Real.pi / 50) :=
        mul_le_mul_of_nonneg_right hcast (le_of_lt hpos)
      nlinarith [h2]
    rw [phaseAt, ih hm, incC_eq, wrapStep, if_neg (by linarith)]
    push_cast
    ring

/-- **C3** (code bug): the accumulator is reduced by the conditional
single-step subtraction `if (phase > 2π) phase -= 2π`, not by modulo
reduction into `[0, 2π)`.  Evaluating the embedded accumulator at the
code's own increment `incC = π/50` from start phase 0: after 100 samples
the phase is exactly `2π`, which is not in `[0, 2π)` — a modulo reduction
would give 0. -/
theorem C3_phase_reduction_bug :
    phaseAt incC 0 100 = 2 * Real.pi ∧ ¬ phaseAt incC 0 100 < 2 * Real.pi := by
  have h : phaseAt incC 0 100 = 2 * Real.pi := by
    rw [phaseAt_incC_linear 100 le_rfl]
    push_cast
    ring
  exact ⟨h, by rw [h]; exact lt_irrefl _⟩

/-- The live parameter registers (the worker's atomic fields,
src/main.cpp:38-41), as streams indexed by the cycle at which the worker's
`load()` would read them; `freqR`/`gainR` are only ever read at connect
time (index 0), `ampR`/`typeR` at the start of every cycle. -/
structure Regs where
  freqR : ℕ → ℝ
  gainR : ℕ → ℝ
  ampR : ℕ → ℝ
  typeR : ℕ → ℤ

/-- Which steps of the connection attempt (src/main.cpp:54-62) succeed:
device open (`multi_usrp::make`), `set_tx_rate`, `set_tx_freq`,
`set_tx_gain`, `get_tx_stream`.  A `false` models that call throwing. -/
structure ConnectBehavior where
  makeOk : Bool
  setRateOk : Bool
  setFreqOk : Bool
  setGainOk : Bool
  getStreamOk : Bool

/-- Observable effects of the run: hardware configuration calls, stream
sends (length, start-of-burst, end-of-burst) and the simulated delay. -/
inductive Ev where
  | setRate : ℝ → Ev
  | setFreq : ℝ → Ev
  | setGain : ℝ → Ev
  | getStream : Ev
  | send : ℕ → Bool → Bool → Ev
  | sleep : Ev

/-- Result of the connection attempt: `hardware_connected`, the burst
metadata flags `md.start_of_burst` / `md.end_of_burst` (default-false, set
at src/main.cpp:63-64 only when every step succeeded), and the hardware
calls that completed before any failure. -/
structure ConnResult where
  hw : Bool
  sob : Bool
  eob : Bool
  trace : List Ev

/-- The try/catch connection attempt (src/main.cpp:53-69): nothing is
attempted for an empty identifier; otherwise the steps run in order and
the first failure is caught, leaving `hardware_connected = false`. -/
noncomputable def connect (args : String) (b : ConnectBehavior) (regs : Regs) : ConnResult :=
  if args.isEmpty then ⟨false, false, false, []⟩
  else if b.makeOk = false then ⟨false, false, false, []⟩
  else if b.setRateOk = false then ⟨false, false, false, []⟩
  else if b.setFreqOk = false then ⟨false, false, false, [Ev.setRate 1000000]⟩
  else if b.setGainOk = false then
    ⟨false, false, false, [Ev.setRate 1000000, Ev.setFreq (regs.freqR 0)]⟩
  else if b.getStreamOk = false then
    ⟨false, false, false,
     [Ev.setRate 1000000, Ev.setFreq (regs.freqR 0), Ev.setGain (regs.gainR 0)]⟩
  else
    ⟨true, true, false,
     [Ev.setRate 1000000, Ev.setFreq (regs.freqR 0), Ev.setGain (regs.gainR 0),
      Ev.getStream]⟩

/-- The worker's mutable state inside `run`: `hardware_connected`, the two
metadata flags, the phase accumulator and the snapshot slot
(`shared_buffer`, initially empty). -/
structure WState where
  hw : Bool
  sob : Bool
  eob : Bool
  phase : ℝ
  slot : List (ℝ × ℝ)

/-- One iteration of the while loop (src/main.cpp:78-108) at cycle `k`:
read `amplitude`/`waveform_type`, synthesise the buffer and step the
phase, then either send on hardware (clearing `start_of_burst` after the
send) or take the simulated delay, and finally publish the buffer into the
snapshot slot when `tryLock` succeeds (`lockFree k`).  `none` models the
unguarded `tx_stream->send` throwing (`sendFails k`), which aborts the
iteration before the flag clear and the publish. -/
noncomputable def cycleStep (regs : Regs) (sendFails lockFree : ℕ → Bool) (k : ℕ)
    (s : WState) : Option (WState × List Ev) :=
  let buff := synthBuffer (regs.ampR k) (regs.typeR k) incC s.phase 2048
  let ph2 := phaseAt incC s.phase 2048
  if s.hw then
    if sendFails k then none
    else
      some (⟨s.hw, false, s.eob, ph2, if lockFree k then buff else s.slot⟩,
            [Ev.send 2048 s.sob s.eob])
  else
    some (⟨s.hw, s.sob, s.eob, ph2, if lockFree k then buff else s.slot⟩, [Ev.sleep])

/-- Outcome of running the loop (and of `run` as a whole): `ok = false`
when an uncaught exception escaped, plus the final state and the trace. -/
structure RunResult where
  ok : Bool
  state : WState
  trace : List Ev

/-- The while loop run for `m` further cycles starting at cycle index `k`:
the `running` flag is modelled by the external choice of how many cycles
execute before stop is requested.  An exception inside a cycle terminates
the loop immediately with `ok = false`. -/
noncomputable def loopRun (regs : Regs) (sf lf : ℕ → Bool) : ℕ → ℕ → WState → RunResult
  | _, 0, s => ⟨true, s, []⟩
  | k, m + 1, s =>
    match cycleStep regs sf lf k s with
    | none => ⟨false, s, []⟩
    | some (s2, evs) =>
      let r := loopRun regs sf lf (k + 1) m s2
      ⟨r.ok, r.state, evs ++ r.trace⟩

/-- The whole of `RadioWorker::run` (src/main.cpp:47-114): connection
attempt, `n` cycles of the generation loop, and — when the loop exits
normally with `hardware_connected` still true — the final zero-length
end-of-burst send (src/main.cpp:110-113). -/
noncomputable def runWorker (args : String) (b : ConnectBehavior) (regs : Regs)
    (sf lf : ℕ → Bool) (n : ℕ) : RunResult :=
  let c := connect args b regs
  let r := loopRun regs sf lf 0 n ⟨c.hw, c.sob, c.eob, 0, []⟩
  if r.ok then
    if r.state.hw then
      ⟨true, ⟨r.state.hw, r.state.sob, true, r.state.phase, r.state.slot⟩,
       c.trace ++ r.trace ++ [Ev.send 0 r.state.sob true]⟩
    else ⟨true, r.state, c.trace ++ r.trace⟩
  else ⟨false, r.state, c.trace ++ r.trace⟩

def isSend : Ev → Bool
  | Ev.send _ _ _ => true
  | _ => false

def isConfig : Ev → Bool
  | Ev.setRate _ => true
  | Ev.setFreq _ => true
  | Ev.setGain _ => true
  | _ => false

/-- The stream sends a trace contains, in order. -/
def sends (t : List Ev) : List Ev := t.filter isSend

/-- The hardware-configuration calls a trace contains, in order. -/
def configs (t : List Ev) : List Ev := t.filter isConfig

/-- The buffer synthesised at cycle `j` of a run that starts at phase 0:
amplitude and waveform selector are the registers' values at cycle `j`,
and the phase accumulator has advanced through `2048 · j` samples. -/
noncomputable def cycleBuf (regs : Regs) (j : ℕ) : List (ℝ × ℝ) :=
  synthBuffer (regs.ampR j) (regs.typeR j) incC (phaseAt incC 0 (2048 * j)) 2048

/-- A behaviour where every connect step succeeds. -/
def bAll : ConnectBehavior := ⟨true, true, true, true, true⟩

/-- Registers frozen at the GUI defaults (src/main.cpp:38-41). -/
noncomputable def regsDflt : Regs := ⟨fun _ => 915000000, fun _ => 40, fun _ => 1, fun _ => 0⟩

lemma cycleStep_hw_nofail (regs : Regs) (sf lf : ℕ → Bool) (k : ℕ) (s : WState)
    (hhw : s.hw = true) (h : sf k = false) :
    cycleStep regs sf lf k s =
      some (⟨true, false, s.eob, phaseAt incC s.phase 2048,
             if lf k then synthBuffer (regs.ampR k) (regs.typeR k) incC s.phase 2048
             else s.slot⟩,
            [Ev.send 2048 s.sob s.eob]) := by
  simp [cycleStep, hhw, h]

lemma cycleStep_sim (regs : Regs) (sf lf : ℕ → Bool) (k : ℕ) (s : WState)
    (hhw : s.hw = false) :
    cycleStep regs sf lf k s =
      some (⟨false, s.sob, s.eob, phaseAt incC s.phase 2048,
             if lf k then synthBuffer (regs.ampR k) (regs.typeR k) incC s.phase 2048
             else s.slot⟩,
            [Ev.sleep]) := by
  simp [cycleStep, hhw]

lemma loopRun_succ (regs : Regs) (sf lf : ℕ → Bool) (k m : ℕ) (s s2 : WState)
    (evs : List Ev) (h : cycleStep regs sf lf k s = some (s2, evs)) :
    loopRun regs sf lf k (m + 1) s =
      ⟨(loopRun regs sf lf (k + 1) m s2).ok, (loopRun regs sf lf (k + 1) m s2).state,
       evs ++ (loopRun regs sf lf (k + 1) m s2).trace⟩ := by
  rw [loopRun, h]

lemma loopRun_sim (regs : Regs) (sf lf : ℕ → Bool) (m : ℕ) :
    ∀ (k : ℕ) (s : WState), s.hw = false →
      (loopRun regs sf lf k m s).ok = true ∧
      (loopRun regs sf lf k m s).state.hw = false ∧
      (loopRun regs sf lf k m s).state.sob = s.sob ∧
      (loopRun regs sf lf k m s).state.eob = s.eob ∧
      (loopRun regs sf lf k m s).trace = List.replicate m Ev.sleep := by
  induction m with
  | zero =>
    intro k s h
    simp [loopRun, h]
  | succ m ih =>
    intro k s h
    have hstep := cycleStep_sim regs sf lf k s h
    obtain ⟨h1, h2, h3, h4, h5⟩ := ih (k + 1)
      ⟨false, s.sob, s.eob, phaseAt incC s.phase 2048,
       if lf k then synthBuffer (regs.ampR k) (regs.typeR k) incC s.phase 2048
       else s.slot⟩ rfl
    rw [loopRun_succ regs sf lf k m s _ _ hstep]
    refine ⟨?_, ?_, ?_, ?_, ?_⟩ <;>
      simp [h1, h2, h3, h4, h5, List.replicate_succ]

lemma loopRun_hw (regs : Regs) (lf : ℕ → Bool) (m : ℕ) :
    ∀ (k : ℕ) (s : WState), s.hw = true → s.eob = false →
      (loopRun regs (fun _ => false) lf k m s).ok = true ∧
      (loopRun regs (fun _ => false) lf k m s).state.hw = true ∧
      (loopRun regs (fun _ => false) lf k m s).state.eob = false ∧
      (loopRun regs (fun _ => false) lf k m s).state.sob
        = (if m = 0 then s.sob else false) ∧
      (loopRun regs (fun _ => false) lf k m s).trace
        = (if m = 0 then []
           else Ev.send 2048 s.sob false
             :: List.replicate (m - 1) (Ev.send 2048 false false)) := by
  induction m with
  | zero =>
    intro k s hhw heob
    simp [loopRun, hhw, heob]
  | succ m ih =>
    intro k s hhw heob
    have hstep := cycleStep_hw_nofail regs (fun _ => false) lf k s hhw rfl
    rw [heob] at hstep
    obtain ⟨h1, h2, h3, h4, h5⟩ := ih (k + 1)
      ⟨true, false, false, phaseAt incC s.phase 2048,
       if lf k then synthBuffer (regs.ampR k) (regs.typeR k) incC s.phase 2048
       else s.slot⟩ rfl rfl
    rw [loopRun_succ regs (fun _ => false) lf k m s _ _ hstep]
    cases m with
    | zero =>
      refine ⟨?_, ?_, ?_, ?_, ?_⟩ <;>
        simp [loopRun, heob, h1, h2, h3, h4, h5]
    | succ m2 =>
      refine ⟨?_, ?_, ?_, ?_, ?_⟩ <;>
        simp [heob, h1, h2, h3, h4, h5, List.replicate_succ]

lemma phaseAt_add (inc p : ℝ) (a b : ℕ) :
    phaseAt inc p (a + b) = phaseAt inc (phaseAt inc p a) b := by
  induction b with
  | zero => rfl
  | succ n ih =>
    rw [Nat.add_succ]
    simp only [phaseAt]
    rw [ih]

lemma loopRun_slot (regs : Regs) (lf : ℕ → Bool) (m : ℕ) :
    ∀ (k : ℕ) (s : WState),
      ((loopRun regs (fun _ => false) lf k m s).state.slot = s.slot ∧
        ∀ j, k ≤ j → j < k + m → lf j = false) ∨
      (∃ j, k ≤ j ∧ j < k + m ∧ lf j = true ∧
        (loopRun regs (fun _ => false) lf k m s).state.slot
          = synthBuffer (regs.ampR j) (regs.typeR j) incC
              (phaseAt incC s.phase (2048 * (j - k))) 2048 ∧
        ∀ i, j < i → i < k + m → lf i = false) := by
  induction m with
  | zero =>
    intro k s
    left
    exact ⟨by simp [loopRun], fun j h1 h2 => by omega⟩
  | succ m ih =>
    intro k s
    obtain ⟨s2, evs, hstep, hphase, hslot⟩ :
        ∃ s2 evs, cycleStep regs (fun _ => false) lf k s = some (s2, evs) ∧
          s2.phase = phaseAt incC s.phase 2048 ∧
          s2.slot = (if lf k then
              synthBuffer (regs.ampR k) (regs.typeR k) incC s.phase 2048
            else s.slot) := by
      cases hhw : s.hw
      · exact ⟨_, _, cycleStep_sim regs _ lf k s hhw, rfl, rfl⟩
      · exact ⟨_, _, cycleStep_hw_nofail regs _ lf k s hhw rfl, rfl, rfl⟩
    rw [loopRun_succ regs (fun _ => false) lf k m s s2 evs hstep]
    dsimp only
    rcases ih (k + 1) s2 with ⟨hL1, hL2⟩ | ⟨j, hj1, hj2, hj3, hj4, hj5⟩
    · by_cases hk : lf k = true
      · right
        refine ⟨k, le_refl k, by omega, hk, ?_, ?_⟩
        · rw [hL1, hslot, if_pos hk]
          simp [phaseAt]
        · intro i hi1 hi2
          exact hL2 i (by omega) (by omega)
      · left
        refine ⟨?_, ?_⟩
        · rw [hL1, hslot, if_neg hk]
        · intro j h1 h2
          rcases Nat.eq_or_lt_of_le h1 with rfl | h3
          · exact Bool.eq_false_iff.mpr hk
          · exact hL2 j (by omega) (by omega)
    · right
      refine ⟨j, by omega, by omega, hj3, ?_, ?_⟩
      · have harith : 2048 * (j - k) = 2048 + 2048 * (j - (k + 1)) := by omega
        rw [hj4, hphase, harith, phaseAt_add]
      · intro i hi1 hi2
        exact hj5 i (by omega) (by omega)

lemma connect_hw_cases (args : String) (b : ConnectBehavior) (regs : Regs) :
    (connect args b regs).hw = true ↔
      (args.isEmpty = false ∧ b.makeOk = true ∧ b.setRateOk = true ∧
       b.setFreqOk = true ∧ b.setGainOk = true ∧ b.getStreamOk = true) := by
  unfold connect
  split_ifs <;> simp_all

lemma connect_ok (args : String) (b : ConnectBehavior) (regs : Regs)
    (h : (connect args b regs).hw = true) :
    connect args b regs =
      ⟨true, true, false,
       [Ev.setRate 1000000, Ev.setFreq (regs.freqR 0), Ev.setGain (regs.gainR 0),
        Ev.getStream]⟩ := by
  obtain ⟨h1, h2, h3, h4, h5, h6⟩ := (connect_hw_cases args b regs).mp h
  unfold connect
  simp [h1, h2, h3, h4, h5, h6]

lemma connect_sends (args : String) (b : ConnectBehavior) (regs : Regs) :
    sends (connect args b regs).trace = [] := by
  unfold connect
  split_ifs <;> simp [sends, isSend]

lemma connect_configs_ok (args : String) (b : ConnectBehavior) (regs : Regs)
    (h : (connect args b regs).hw = true) :
    configs (connect args b regs).trace =
      [Ev.setRate 1000000, Ev.setFreq (regs.freqR 0), Ev.setGain (regs.gainR 0)] := by
  rw [connect_ok args b regs h]
  simp [configs, isConfig]

lemma loopRun_fail (regs : Regs) (sf lf : ℕ → Bool) (k m : ℕ) (s : WState)
    (h : cycleStep regs sf lf k s = none) :
    loopRun regs sf lf k (m + 1) s = ⟨false, s, []⟩ := by
  rw [loopRun, h]

lemma sends_append (t u : List Ev) : sends (t ++ u) = sends t ++ sends u :=
  List.filter_append _ _

lemma configs_append (t u : List Ev) : configs (t ++ u) = configs t ++ configs u :=
  List.filter_append _ _

lemma sends_replicate_sleep (m : ℕ) : sends (List.replicate m Ev.sleep) = [] := by
  induction m with
  | zero => rfl
  | succ m ih =>
    rw [List.replicate_succ]
    unfold sends at ih ⊢
    rw [List.filter_cons_of_neg (by simp [isSend])]
    exact ih

lemma cycleStep_evs_noconfig (regs : Regs) (sf lf : ℕ → Bool) (k : ℕ) (s s2 : WState)
    (evs : List Ev) (h : cycleStep regs sf lf k s = some (s2, evs)) :
    configs evs = [] := by
  cases hhw : s.hw
  · simp only [cycleStep_sim regs sf lf k s hhw, Option.some.injEq, Prod.mk.injEq] at h
    rw [← h.2]
    rfl
  · cases hsf : sf k
    · simp only [cycleStep_hw_nofail regs sf lf k s hhw hsf, Option.some.injEq,
        Prod.mk.injEq] at h
      rw [← h.2]
      rfl
    · have hnone : cycleStep regs sf lf k s = none := by
        simp [cycleStep, hhw, hsf]
      rw [hnone] at h
      cases h

lemma loopRun_configs (regs : Regs) (sf lf : ℕ → Bool) (m : ℕ) :
    ∀ (k : ℕ) (s : WState), configs (loopRun regs sf lf k m s).trace = [] := by
  induction m with
  | zero =>
    intro k s
    simp [loopRun, configs]
  | succ m ih =>
    intro k s
    cases hstep : cycleStep regs sf lf k s with
    | none =>
      rw [loopRun_fail regs sf lf k m s hstep]
      rfl
    | some pr =>
      rw [loopRun_succ regs sf lf k m s pr.1 pr.2 (by rw [hstep])]
      dsimp only
      rw [configs_append, ih (k + 1) pr.1,
          cycleStep_evs_noconfig regs sf lf k s pr.1 pr.2 (by rw [hstep])]
      rfl

lemma runWorker_slot_proj (args : String) (b : ConnectBehavior) (regs : Regs)
    (sf lf : ℕ → Bool) (n : ℕ) :
    (runWorker args b regs sf lf n).state.slot =
      (loopRun regs sf lf 0 n
        ⟨(connect args b regs).hw, (connect args b regs).sob,
         (connect args b regs).eob, 0, []⟩).state.slot := by
  simp only [runWorker]
  split_ifs <;> rfl

lemma runWorker_slot_lf_true (args : String) (b : ConnectBehavior) (regs : Regs)
    (n : ℕ) (hn : 0 < n) :
    (runWorker args b regs (fun _ => false) (fun _ => true) n).state.slot
      = cycleBuf regs (n - 1) := by
  rw [runWorker_slot_proj]
  rcases loopRun_slot regs (fun _ => true) n 0
      ⟨(connect args b regs).hw, (connect args b regs).sob,
       (connect args b regs).eob, 0, []⟩ with ⟨h1, h2⟩ | ⟨j, hj1, hj2, hj3, hj4, hj5⟩
  · exact absurd (h2 0 (le_refl 0) (by omega)) (by simp)
  · have hj : j = n - 1 := by
      by_contra hne
      exact absurd (hj5 (j + 1) (by omega) (by omega)) (by simp)
    rw [hj4, hj]
    unfold cycleBuf
    simp

/-- **C1.** For every nonempty device identifier and every way the connect
steps can fail, if any step fails the failure is caught (`run` still
finishes normally, `ok = true`), the worker proceeds in simulation mode for
the whole run (`hardware_connected` stays false and the trace contains no
stream send), and this holds for every per-cycle send-failure and
reader-lock schedule — in particular a non-existent identifier
(`makeOk = false`) always results in the simulating state, never a crash. -/
theorem C1_connect_failure_simulates (args : String) (b : ConnectBehavior) (regs : Regs)
    (sf lf : ℕ → Bool) (n : ℕ) (ha : args.isEmpty = false)
    (hfail : b.makeOk = false ∨ b.setRateOk = false ∨ b.setFreqOk = false ∨
      b.setGainOk = false ∨ b.getStreamOk = false) :
    (connect args b regs).hw = false ∧
    (runWorker args b regs sf lf n).ok = true ∧
    (runWorker args b regs sf lf n).state.hw = false ∧
    sends (runWorker args b regs sf lf n).trace = [] := by
  have hhw : (connect args b regs).hw = false := by
    rw [Bool.eq_false_iff]
    intro hc
    obtain ⟨e1, e2, e3, e4, e5, e6⟩ := (connect_hw_cases args b regs).mp hc
    rcases hfail with h | h | h | h | h <;> simp_all
  obtain ⟨l1, l2, l3, l4, l5⟩ := loopRun_sim regs sf lf n 0
    ⟨(connect args b regs).hw, (connect args b regs).sob,
     (connect args b regs).eob, 0, []⟩ hhw
  refine ⟨hhw, ?_, ?_, ?_⟩
  · simp only [runWorker]
    simp [l1, l2]
  · simp only [runWorker]
    simp [l1, l2]
  · simp only [runWorker]
    simp only [l1, l2, if_true, if_false]
    simp only [Bool.false_eq_true, if_false]
    rw [sends_append, connect_sends, l5, sends_replicate_sleep]
    rfl

/-- Witness for C1: identifier `"x"` with a failing device open, three
cycles. -/
theorem C1_connect_failure_simulates_w :
    (connect "x" ⟨false, true, true, true, true⟩ regsDflt).hw = false ∧
    (runWorker "x" ⟨false, true, true, true, true⟩ regsDflt
      (fun _ => false) (fun _ => true) 3).ok = true ∧
    (runWorker "x" ⟨false, true, true, true, true⟩ regsDflt
      (fun _ => false) (fun _ => true) 3).state.hw = false ∧
    sends (runWorker "x" ⟨false, true, true, true, true⟩ regsDflt
      (fun _ => false) (fun _ => true) 3).trace = [] :=
  C1_connect_failure_simulates "x" ⟨false, true, true, true, true⟩ regsDflt
    (fun _ => false) (fun _ => true) 3 rfl (Or.inl rfl)

/-- **C2** (code bug): the `tx_stream->send` call inside the cycle is not
guarded by any try/catch (src/main.cpp:97-98), so a send failure after a
successful connect escapes the run loop as an exception (`ok = false`)
instead of being caught per-cycle and degrading the session to simulation:
evaluated here at a connected session whose first send fails. -/
theorem C2_send_failure_escapes_loop :
    (runWorker "x" bAll regsDflt (fun _ => true) (fun _ => true) 1).ok = false := by
  have hhw : (connect "x" bAll regsDflt).hw = true := by
    rw [connect_hw_cases]
    exact ⟨rfl, rfl, rfl, rfl, rfl, rfl⟩
  have hstep : cycleStep regsDflt (fun _ => true) (fun _ => true) 0
      ⟨(connect "x" bAll regsDflt).hw, (connect "x" bAll regsDflt).sob,
       (connect "x" bAll regsDflt).eob, 0, []⟩ = none := by
    simp [cycleStep, hhw]
  have hloop := loopRun_fail regsDflt (fun _ => true) (fun _ => true) 0 0
    ⟨(connect "x" bAll regsDflt).hw, (connect "x" bAll regsDflt).sob,
     (connect "x" bAll regsDflt).eob, 0, []⟩ hstep
  simp only [runWorker]
  rw [show (1 : ℕ) = 0 + 1 from rfl, hloop]
  rfl

lemma sends_replicate_send (m len : ℕ) (x y : Bool) :
    sends (List.replicate m (Ev.send len x y)) = List.replicate m (Ev.send len x y) := by
  induction m with
  | zero => rfl
  | succ m ih =>
    rw [List.replicate_succ]
    unfold sends at ih ⊢
    rw [List.filter_cons_of_pos (by simp [isSend])]
    rw [ih]

lemma runWorker_hw_trace (args : String) (b : ConnectBehavior) (regs : Regs)
    (lf : ℕ → Bool) (n : ℕ) (hc : (connect args b regs).hw = true) :
    (runWorker args b regs (fun _ => false) lf n).trace
      = [Ev.setRate 1000000, Ev.setFreq (regs.freqR 0), Ev.setGain (regs.gainR 0),
         Ev.getStream]
        ++ (if n = 0 then []
            else Ev.send 2048 true false
              :: List.replicate (n - 1) (Ev.send 2048 false false))
        ++ [Ev.send 0 (if n = 0 then true else false) true] := by
  have hconn := connect_ok args b regs hc
  obtain ⟨l1, l2, l3, l4, l5⟩ := loopRun_hw regs lf n 0 ⟨true, true, false, 0, []⟩ rfl rfl
  simp only [runWorker, hconn]
  simp only [l1, l2, l4, l5, if_true]

/-- **C6.** Burst framing in a hardware-connected session: the first data
send of the session carries `start_of_burst = true`, every later data send
carries it cleared, and on loop exit the transport performs exactly one
final zero-length send with `end_of_burst = true`; a session that never
connected performs no send at all, in particular no burst termination. -/
theorem C6_burst_framing (args : String) (b : ConnectBehavior) (regs : Regs)
    (lf : ℕ → Bool) (n : ℕ) (hn : 0 < n) :
    ((connect args b regs).hw = true →
      sends (runWorker args b regs (fun _ => false) lf n).trace
        = Ev.send 2048 true false
            :: (List.replicate (n - 1) (Ev.send 2048 false false)
                ++ [Ev.send 0 false true])) ∧
    ((connect args b regs).hw = false →
      sends (runWorker args b regs (fun _ => false) lf n).trace = []) := by
  constructor
  · intro hc
    have hn2 : ¬ n = 0 := by omega
    rw [runWorker_hw_trace args b regs lf n hc, if_neg hn2, if_neg hn2,
        sends_append, sends_append]
    have h1 : sends [Ev.setRate 1000000, Ev.setFreq (regs.freqR 0),
        Ev.setGain (regs.gainR 0), Ev.getStream] = [] := rfl
    have h2 : sends [Ev.send 0 false true] = [Ev.send 0 false true] := rfl
    rw [h1, h2]
    unfold sends
    rw [List.filter_cons_of_pos (by simp [isSend])]
    have h3 := sends_replicate_send (n - 1) 2048 false false
    unfold sends at h3
    rw [h3]
    simp
  · intro hc
    obtain ⟨l1, l2, l3, l4, l5⟩ := loopRun_sim regs (fun _ => false) lf n 0
      ⟨(connect args b regs).hw, (connect args b regs).sob,
       (connect args b regs).eob, 0, []⟩ hc
    simp only [runWorker]
    simp only [l1, l2, if_true, if_false]
    simp only [Bool.false_eq_true, if_false]
    rw [sends_append, connect_sends, l5, sends_replicate_sleep]
    rfl

/-- Witness for C6: identifier `"x"`, every connect step succeeding, two
cycles: the send trace is start-of-burst, one cleared send, then the
zero-length end-of-burst send. -/
theorem C6_burst_framing_w :
    ((connect "x" bAll regsDflt).hw = true →
      sends (runWorker "x" bAll regsDflt (fun _ => false) (fun _ => true) 2).trace
        = Ev.send 2048 true false
            :: (List.replicate (2 - 1) (Ev.send 2048 false false)
                ++ [Ev.send 0 false true])) ∧
    ((connect "x" bAll regsDflt).hw = false →
      sends (runWorker "x" bAll regsDflt (fun _ => false) (fun _ => true) 2).trace
        = []) :=
  C6_burst_framing "x" bAll regsDflt (fun _ => true) 2 (by omega)

/-- **C7.** The hardware centre frequency and gain are configured exactly
once, at connect time, from the registers' values at index 0 — for every
register history and every later schedule, the configuration calls in the
trace are exactly `set_tx_rate`, `set_tx_freq (freqR 0)`,
`set_tx_gain (gainR 0)` — while amplitude and waveform selector are
re-read every cycle: the buffer published after `n` cycles is synthesised
from `ampR (n-1)` and `typeR (n-1)`. -/
theorem C7_config_applied_once (args : String) (b : ConnectBehavior) (regs : Regs)
    (n : ℕ) (hc : (connect args b regs).hw = true) (hn : 0 < n) :
    (∀ sf lf : ℕ → Bool, configs (runWorker args b regs sf lf n).trace
        = [Ev.setRate 1000000, Ev.setFreq (regs.freqR 0), Ev.setGain (regs.gainR 0)]) ∧
    (runWorker args b regs (fun _ => false) (fun _ => true) n).state.slot
      = cycleBuf regs (n - 1) := by
  constructor
  · intro sf lf
    simp only [runWorker]
    split_ifs <;>
      (simp only [configs_append, connect_configs_ok args b regs hc,
        loopRun_configs regs sf lf n]
       simp [configs, isConfig])
  · exact runWorker_slot_lf_true args b regs n hn

/-- Witness for C7: identifier `"x"`, all connect steps succeeding, the
default registers, two cycles. -/
theorem C7_config_applied_once_w :
    (∀ sf lf : ℕ → Bool, configs (runWorker "x" bAll regsDflt sf lf 2).trace
        = [Ev.setRate 1000000, Ev.setFreq (regsDflt.freqR 0),
           Ev.setGain (regsDflt.gainR 0)]) ∧
    (runWorker "x" bAll regsDflt (fun _ => false) (fun _ => true) 2).state.slot
      = cycleBuf regsDflt (2 - 1) :=
  C7_config_applied_once "x" bAll regsDflt 2
    ((connect_hw_cases "x" bAll regsDflt).mpr ⟨rfl, rfl, rfl, rfl, rfl, rfl⟩)
    (by omega)

/-- **C8.** The snapshot publish is try-lock-or-skip: for every schedule of
cycles on which a reader holds the lock (`lf k = false`), the slot after
the run either still holds the initial empty buffer (when every publish
was skipped) or holds exactly the complete buffer of the most recent cycle
whose publish succeeded — a reader observes only whole previously
published buffers, never a partial one, and no cycle ever waits. -/
theorem C8_snapshot_channel (args : String) (b : ConnectBehavior) (regs : Regs)
    (lf : ℕ → Bool) (n : ℕ) :
    ((runWorker args b regs (fun _ => false) lf n).state.slot = [] ∧
      ∀ j, j < n → lf j = false) ∨
    (∃ j, j < n ∧ lf j = true ∧
      (runWorker args b regs (fun _ => false) lf n).state.slot = cycleBuf regs j ∧
      ∀ i, j < i → i < n → lf i = false) := by
  have hproj := runWorker_slot_proj args b regs (fun _ => false) lf n
  rcases loopRun_slot regs lf n 0
      ⟨(connect args b regs).hw, (connect args b regs).sob,
       (connect args b regs).eob, 0, []⟩ with ⟨h1, h2⟩ | ⟨j, hj1, hj2, hj3, hj4, hj5⟩
  · left
    exact ⟨by rw [hproj, h1], fun j hj => h2 j (Nat.zero_le j) (by omega)⟩
  · right
    refine ⟨j, by omega, hj3, ?_, fun i hi1 hi2 => hj5 i hi1 (by omega)⟩
    rw [hproj, hj4]
    unfold cycleBuf
    simp

lemma phaseAt_inv (inc p : ℝ) (h0 : 0 ≤ inc) (h2 : inc ≤ 2 * Real.pi)
    (hp0 : 0 ≤ p) (hp2 : p ≤ 2 * Real.pi) (n : ℕ) :
    (∃ j : ℕ, phaseAt inc p n = p + n * inc - j * (2 * Real.pi)) ∧
    0 ≤ phaseAt inc p n ∧ phaseAt inc p n ≤ 2 * Real.pi := by
  induction n with
  | zero =>
    exact ⟨⟨0, by simp [phaseAt]⟩, by simpa [phaseAt] using hp0,
      by simpa [phaseAt] using hp2⟩
  | succ n ih =>
    obtain ⟨⟨j, hj⟩, hb0, hb2⟩ := ih
    simp only [phaseAt]
    by_cases hgt : phaseAt inc p n + inc > 2 * Real.pi
    · refine ⟨⟨j + 1, ?_⟩, ?_, ?_⟩ <;> rw [wrapStep, if_pos hgt]
      · rw [hj]; push_cast; ring
      · linarith
      · linarith
    · refine ⟨⟨j, ?_⟩, ?_, ?_⟩ <;> rw [wrapStep, if_neg hgt]
      · rw [hj]; push_cast; ring
      · linarith
      · linarith [not_lt.mp hgt]

lemma phaseAt_incC_18432 : phaseAt incC 0 18432 = 16 * Real.pi / 25 := by
  have hpi := Real.pi_pos
  have hinc0 : (0 : ℝ) ≤ incC := by rw [incC_eq]; positivity
  have hinc2 : incC ≤ 2 * Real.pi := by rw [incC_eq]; linarith
  obtain ⟨⟨j, hj⟩, hb0, hb2⟩ :=
    phaseAt_inv incC 0 hinc0 hinc2 le_rfl (by linarith) 18432
  rw [hj, incC_eq] at hb0 hb2
  have k1 : (100 * (j : ℝ)) * Real.pi ≤ 18432 * Real.pi := by
    push_cast at hb0 ⊢
    nlinarith [hb0]
  have k2 : (18432 : ℝ) * Real.pi ≤ (100 * (j : ℝ) + 100) * Real.pi := by
    push_cast at hb2 ⊢
    nlinarith [hb2]
  have j1 : 100 * (j : ℝ) ≤ 18432 := (mul_le_mul_right hpi).mp k1
  have j2 : (18432 : ℝ) ≤ 100 * (j : ℝ) + 100 := (mul_le_mul_right hpi).mp k2
  have jn1 : 100 * j ≤ 18432 := by exact_mod_cast j1
  have jn2 : 18432 ≤ 100 * j + 100 := by exact_mod_cast j2
  have hje : j = 184 := by omega
  rw [hj, hje, incC_eq]
  push_cast
  ring

lemma synthBuffer_head (amp : ℝ) (ty : ℤ) (inc p : ℝ) (n : ℕ) (hn : 0 < n) :
    (synthBuffer amp ty inc p n).head? = some (synthSample amp ty p) := by
  cases n with
  | zero => omega
  | succ m =>
    unfold synthBuffer
    rw [List.range_succ_eq_map]
    simp [phaseAt]

/-- Registers for the end-to-end simulation scenario: amplitude 0.5,
waveform selector SINE (0), frequency and gain at the GUI defaults. -/
noncomputable def regsC9 : Regs := ⟨fun _ => 915000000, fun _ => 40, fun _ => 1 / 2, fun _ => 0⟩

/-- **C9** (counterexample): in the simulation scenario with amplitude 0.5
and SINE, after 10 complete cycles the snapshot's sample 0 is synthesised
at phase `16π/25` (the accumulator after `9 · 2048` increments of `π/50`),
so its real part is `cos(16π/25)/2 ≈ -0.213 < 0` — not approximately 0.5
as the claim states (and its imaginary part is `sin(16π/25)/2 ≈ 0.46`,
not approximately 0). -/
theorem C9_ten_cycles_cx :
    (runWorker "" bAll regsC9 (fun _ => false) (fun _ => true) 10).state.slot.head?
      = some (Real.cos (16 * Real.pi / 25) * (1 / 2),
              Real.sin (16 * Real.pi / 25) * (1 / 2))
    ∧ Real.cos (16 * Real.pi / 25) * (1 / 2) < 0 := by
  constructor
  · rw [runWorker_slot_lf_true "" bAll regsC9 10 (by omega)]
    unfold cycleBuf
    rw [show (2048 : ℕ) * (10 - 1) = 18432 by norm_num, phaseAt_incC_18432,
        synthBuffer_head _ _ _ _ 2048 (by norm_num)]
    simp [regsC9, synthSample_sine]
  · have h1 : Real.pi / 2 < 16 * Real.pi / 25 := by linarith [Real.pi_pos]
    have h2 : 16 * Real.pi / 25 < Real.pi + Real.pi / 2 := by linarith [Real.pi_pos]
    have hneg := Real.cos_neg_of_pi_div_two_lt_of_lt h1 h2
    linarith

/-- **C9** (amended): in the simulation scenario with amplitude 0.5 and
SINE starting at phase 0, after 1 complete cycle the published snapshot's
sample at index 0 is exactly `(0.5, 0)`: real part 0.5, imaginary part 0. -/
theorem C9_first_cycle_snapshot :
    (runWorker "" bAll regsC9 (fun _ => false) (fun _ => true) 1).state.slot.head?
      = some ((1 : ℝ) / 2, 0) := by
  rw [runWorker_slot_lf_true "" bAll regsC9 1 (by omega)]
  unfold cycleBuf
  rw [show (2048 : ℕ) * (1 - 1) = 0 by norm_num,
      synthBuffer_head _ _ _ _ 2048 (by norm_num)]
  simp [regsC9, synthSample_sine, phaseAt]

end USRPVis
